import Mathlib

/-!
Verification of the KTR knot-placement / kernel-interpolation engine.

Shallow embedding of `src/orbit/template/ktr.py` (class `KTRModel`) over exact
rationals.  Machine floats are replaced by `ℚ`; the two library helpers that
live outside `src/` are modelled from the specification (see the doc comments
on `gauss_kernel` and `is_ordered_datetime`); random draws (Laplace trend
extension, observation noise) are supplied as explicit draw streams, matching
the specification's note that the random source is external state.
-/

set_option linter.unusedVariables false

namespace Orbit

/-! ## Generic array helpers (numpy counterparts) -/

/-- Dot product of two equal-length lists (`np.sum(a * b)` on 1-d arrays). -/
def dotQ (xs ys : List ℚ) : ℚ := (List.zipWith (· * ·) xs ys).sum

/-- `np.zeros((r, c))`. -/
def zerosMat (r c : ℕ) : List (List ℚ) := List.replicate r (List.replicate c 0)

/-- `np.full((r, c), v)`. -/
def fullMat (r c : ℕ) (v : ℚ) : List (List ℚ) := List.replicate r (List.replicate c v)

/-- `np.matmul(A, B.T)` for row-major matrices: row `s` of the result is
`A[s] · B[t]` over the rows `t` of `B`. -/
def matmulT (A B : List (List ℚ)) : List (List ℚ) :=
  A.map (fun arow => B.map (fun brow => dotQ arow brow))

/-- Integer `np.arange(start, stop, step)`: `ceil((stop-start)/step)` points
starting at `start` with stride `step` (empty when `stop ≤ start`). -/
def arangeN (start stop step : ℕ) : List ℕ :=
  (List.range ((stop - start + step - 1) / step)).map (fun i => start + i * step)

/-- Rational `np.arange(start, stop, step)` for a positive step:
`ceil((stop-start)/step)` points starting at `start` with stride `step`. -/
def arangeQ (start stop step : ℚ) : List ℚ :=
  (List.range (⌈(stop - start) / step⌉.toNat)).map (fun (i : ℕ) => start + (i : ℚ) * step)

/-- `math.ceil(a / b)` on naturals. -/
def ceilDivN (a b : ℕ) : ℕ := (a + b - 1) / b

/-- Python `round(d / 2)` for an integer `d`: banker's rounding of the exact
half-integer `d / 2` (ties go to the even integer), as `_set_knots_tp`
applies it to the integer knot distance. -/
def pyRoundHalf (d : ℕ) : ℕ :=
  if d % 2 = 0 then d / 2
  else if (d / 2) % 2 = 0 then d / 2 else d / 2 + 1

/-- `np.mean` of a 1-d array (the embedding is only applied to non-empty
slices: the planner's knot indices are strictly increasing and below the
number of observations, so every segment slice is non-empty). -/
def meanQ (l : List ℚ) : ℚ := l.sum / (l.length : ℚ)

/-- Insertion sort, ascending. -/
def insertSorted (x : ℚ) : List ℚ → List ℚ
  | [] => [x]
  | y :: ys => if x ≤ y then x :: y :: ys else y :: insertSorted x ys

/-- Ascending sort of a rational list. -/
def sortQ : List ℚ → List ℚ
  | [] => []
  | x :: xs => insertSorted x (sortQ xs)

/-- `np.median` of a non-empty 1-d array: middle element of the sorted data,
or the average of the two middle elements for even length. -/
def medianQ (l : List ℚ) : ℚ :=
  let s := sortQ l
  let n := l.length
  if n % 2 = 1 then s.getD (n / 2) 0
  else (s.getD (n / 2 - 1) 0 + s.getD (n / 2) 0) / 2

/-- Python slice `X[a:b]` on the row list of a matrix. -/
def sliceRows (X : List (List ℚ)) (a b : ℕ) : List (List ℚ) :=
  (X.drop a).take (b - a)

/-- `np.fabs(X)[:, j]`: absolute values of column `j`. -/
def columnAbs (X : List (List ℚ)) (j : ℕ) : List ℚ :=
  X.map (fun row => |row.getD j 0|)

/-- Entry `A[s][t]` of a row-major matrix (out-of-range reads give `0`;
all theorems index within the stated shapes). -/
def entry (A : List (List ℚ)) (s t : ℕ) : ℚ := (A.getD s []).getD t 0

/-- The normalized training time positions `np.arange(1, N + 1) / N`
(`ktr.py` lines 477, 733). -/
def trainTpList (n : ℕ) : List ℚ :=
  (List.range n).map (fun i => ((i + 1 : ℕ) : ℚ) / (n : ℚ))

/-! ## Kernel basis builder (library code modelled from the spec) -/

/-- Modelled from the spec: `gauss_kernel` of `orbit/utils/kernels.py` (not
under `src/`), spec §4.2: `K[i,j] = exp(-(t_i - k_j)^2 / (2 * rho^2))`,
unnormalized.  The exponential is kept as an explicit function argument
`gexp`, since every claim below depends only on which arguments the kernel is
built from, never on the numeric value of `exp`. -/
def gauss_kernel (gexp : ℚ → ℚ) (tp knots : List ℚ) (rho : ℚ) : List (List ℚ) :=
  tp.map (fun t => knots.map (fun k => gexp (-(t - k) ^ 2 / (2 * rho ^ 2))))

/-! ## Knot placement planner (`_set_knots_tp`, `_set_coefficients_kernel_matrix`) -/

/-- `KTRModel._set_knots_tp` (lines 399-406): first knot index is
`round(knots_distance / 2)`, then `np.arange` with stride `knots_distance`
up to (not including) `cutoff`. -/
def set_knots_tp (knots_distance cutoff : ℕ) : List ℕ :=
  arangeN (pyRoundHalf knots_distance) cutoff knots_distance

/-- `KTRModel.__init__` lines 225 and 243: the constructor first stores the
`regression_segments` argument into the attribute, then line 243
unconditionally overwrites the attribute with `0`, so the stored value is
always `0` whatever the caller passed. -/
def init_regression_segments (_regression_segments : ℕ) : ℕ := 0

/-- The even-segmentation branch of `_set_coefficients_kernel_matrix`
(lines 480-499) for a configuration with regressors and no explicit knot
dates: line 482 resets the `regression_segments` attribute to `0` again, and
line 493 reads that attribute (not the constructor argument) to derive the
spacing. -/
def set_coefficients_kernel_knots_idx
    (regression_segments_arg : ℕ) (regression_knot_distance : Option ℕ)
    (cutoff : ℕ) : List ℕ :=
  let regression_segments := init_regression_segments regression_segments_arg
  -- line 482: `self.regression_segments = 0`
  let regression_segments := 0
  let knots_distance :=
    match regression_knot_distance with
    | some d => d
    | none =>
      -- line 493: `number_of_knots = self.regression_segments + 1`
      let number_of_knots := regression_segments + 1
      ceilDivN cutoff number_of_knots
  set_knots_tp knots_distance cutoff

/-- The spacing computation as the class interface intends it (the dead
assignment at line 225 and the constructor signature default
`regression_segments=5`): spacing `ceil(cutoff / (segments + 1))` computed
from the user-supplied segment count, then `_set_knots_tp`. -/
def knots_idx_with_user_segments (segments cutoff : ℕ) : List ℕ :=
  set_knots_tp (ceilDivN cutoff (segments + 1)) cutoff

/-! ## Design matrix assembler (`_set_knots_scale_matrix`, lines 540-620) -/

/-- The per-segment local mean-absolute volume `local_val` (lines 550-558 /
591-599): segment `k` covers rows `knots_idx[k] .. knots_idx[k+1]` (the last
segment extends to `num_of_observations`), and entry `(j, k)` is
`np.mean(np.fabs(matrix[str_idx:end_idx]), axis=0)[j]`. -/
def localVal (X : List (List ℚ)) (knotsIdx : List ℕ) (numObs R : ℕ) : List (List ℚ) :=
  (List.range R).map (fun j =>
    (List.range knotsIdx.length).map (fun k =>
      let str_idx := knotsIdx.getD k 0
      let end_idx := if k + 1 < knotsIdx.length then knotsIdx.getD (k + 1) 0 else numObs
      meanQ ((sliceRows X str_idx end_idx).map (fun row => |row.getD j 0|))))

/-- The knot-scale multiplier for positive regressors (lines 542-567): with
`flat_multiplier` every entry is `1`; otherwise entry `(j, k)` is
`0.01` when `local_val[j, k] < 0.01 * global_med[j]` (with `global_med` the
per-regressor mean absolute value, line 562) and `1` otherwise.  Line 567
resets any all-NaN multiplier row to `1.0`; over exact rationals every entry
is `1` or `1/100`, so that reset never fires and is the identity here. -/
def positive_knots_multiplier (flat_multiplier : Bool) (X : List (List ℚ))
    (knotsIdx : List ℕ) (numObs R : ℕ) : List (List ℚ) :=
  if flat_multiplier then fullMat R knotsIdx.length 1
  else
    let lv := localVal X knotsIdx numObs R
    (List.range R).map (fun j =>
      let global_med := meanQ (columnAbs X j)
      (List.range knotsIdx.length).map (fun k =>
        if (lv.getD j []).getD k 0 < (1 / 100) * global_med then 1 / 100 else 1))

/-- The knot-scale multiplier for regular (unconstrained) regressors
(lines 582-607).  Lines 586-589 assign an all-ones multiplier in *both*
branches of `if self.flat_multiplier`; unlike the positive branch, the
local-volume adjustment of lines 590-607 sits at the `if`'s own indentation
level, so it runs regardless of `flat_multiplier` — the argument is dead.
`global_med` is the per-regressor *median* absolute value (line 603); the
all-NaN row reset of line 607 is the identity over exact rationals. -/
def regular_knots_multiplier (_flat_multiplier : Bool) (X : List (List ℚ))
    (knotsIdx : List ℕ) (numObs R : ℕ) : List (List ℚ) :=
  let lv := localVal X knotsIdx numObs R
  (List.range R).map (fun j =>
    let global_med := medianQ (columnAbs X j)
    (List.range knotsIdx.length).map (fun k =>
      if (lv.getD j []).getD k 0 < (1 / 100) * global_med then 1 / 100 else 1))

/-! ## Coefficient prior filter (`_filter_coef_prior`, lines 772-790) -/

/-- A declared coefficient prior before filtering: the window
`[prior_start_tp_idx, prior_end_tp_idx)`, scalar mean and sd, and the target
regressor columns. -/
structure CoefPrior where
  prior_start_tp_idx : ℤ
  prior_end_tp_idx : ℤ
  prior_mean : ℚ
  prior_sd : ℚ
  prior_regressor_col : List String
deriving DecidableEq

/-- A coefficient prior after filtering: clamped window endpoints and
mean/sd broadcast into `(window_length × num_target_columns)` arrays. -/
structure FilteredCoefPrior where
  prior_start_tp_idx : ℤ
  prior_end_tp_idx : ℤ
  prior_mean : List (List ℚ)
  prior_sd : List (List ℚ)
  prior_regressor_col : List String
deriving DecidableEq

/-- The body of `_filter_coef_prior` for one prior (lines 776-790): both
endpoints are clamped by `min(·, df.shape[0])`; a non-empty clamped window
broadcasts mean/sd via `np.full`; an empty one removes the prior. -/
def filter_one_coef_prior (numObs : ℤ) (p : CoefPrior) : Option FilteredCoefPrior :=
  let end_tp_idx := min p.prior_end_tp_idx numObs
  let start_tp_idx := min p.prior_start_tp_idx numObs
  if start_tp_idx < end_tp_idx then
    some { prior_start_tp_idx := start_tp_idx
           prior_end_tp_idx := end_tp_idx
           prior_mean := fullMat (end_tp_idx - start_tp_idx).toNat p.prior_regressor_col.length p.prior_mean
           prior_sd := fullMat (end_tp_idx - start_tp_idx).toNat p.prior_regressor_col.length p.prior_sd
           prior_regressor_col := p.prior_regressor_col }
  else none

/-- `_filter_coef_prior` over the active prior list: iterating over a copy
while removing invalid priors from the original is, in effect, an
order-preserving filter-map. -/
def filter_coef_prior (numObs : ℤ) (l : List CoefPrior) : List FilteredCoefPrior :=
  l.filterMap (filter_one_coef_prior numObs)

/-- A concrete regressor column name used by concrete instances below. -/
def colX : String := "x"

/-- A second concrete regressor column name. -/
def colY : String := "y"

/-! ## Static regression attributes (`_set_static_regression_attributes`,
lines 332-362) and coefficient concatenation (`_concat_regression_coefs`,
lines 801-827) -/

/-- The sign tag marking a positive-constrained regressor. -/
def plusSign : String := "+"

/-- The default (unconstrained) sign tag. -/
def eqSign : String := "="

/-- The loop of `_set_static_regression_attributes` (lines 337-353) on
`(column, sign)` pairs: a `'+'` sign appends the column to the positive
group, any other sign to the regular group, scanning in declaration order. -/
def partition_regressors : List (String × String) → List String × List String
  | [] => ([], [])
  | p :: rest =>
    let t := partition_regressors rest
    if p.2 = plusSign then (t.1, p.1 :: t.2) else (p.1 :: t.1, t.2)

/-- `_set_static_regression_attributes` column outcome: the regular and
positive groups, and (line 355) the combined list `regular ++ positive`. -/
def set_static_regressor_cols (regressor_col regressor_sign : List String) :
    List String × List String × List String :=
  let t := partition_regressors (List.zip regressor_col regressor_sign)
  (t.1, t.2, t.1 ++ t.2)

/-- `_concat_regression_coefs` (lines 801-827) on 2-d coefficient matrices:
`torch.cat((rr_beta, pr_beta), dim=1)` appends each positive row after the
corresponding regular row; a single present argument passes through. -/
def concat_regression_coefs (pr_beta rr_beta : Option (List (List ℚ))) :
    Option (List (List ℚ)) :=
  match pr_beta, rr_beta with
  | some pr, some rr => some (List.zipWith (fun rrow prow => rrow ++ prow) rr pr)
  | some pr, none => some pr
  | none, some rr => some rr
  | none, none => none

/-! ## Calendar/index utility (`_generate_tp`, lines 622-635, and the
prediction start resolution of `predict`, lines 861-867).  Dates are
embedded as rationals; `pd.Index(...).get_loc` is an exact-match index
lookup in the training date array. -/

/-- The start offset: a prediction start past the training end continues
counting from `num_of_observations`; otherwise the start date is located by
exact match in the training date index. -/
def generate_tp_start (training_end : ℚ) (num_of_observations : ℕ)
    (date_array : List ℚ) (prediction_start : ℚ) : ℕ :=
  if training_end < prediction_start then num_of_observations
  else date_array.indexOf prediction_start

/-- `_generate_tp`: `np.arange(start + 1, start + output_len + 1) /
num_of_observations` with `start` resolved from the first prediction date. -/
def generate_tp (training_end : ℚ) (num_of_observations : ℕ)
    (date_array : List ℚ) (prediction_date_array : List ℚ) : List ℚ :=
  let start := generate_tp_start training_end num_of_observations date_array
    (prediction_date_array.headD 0)
  (List.range prediction_date_array.length).map
    (fun i => ((start + i + 1 : ℕ) : ℚ) / (num_of_observations : ℚ))

/-! ## Trend-knot extension for simulated error (`predict`, lines 868-886) -/

/-- `np.cumsum(np.concatenate([last, draws], axis=1), axis=1)[:, 1:]` for one
posterior sample: position `j` of the walk is the last known knot value plus
the sum of the first `j + 1` increments. -/
def walkFrom (x0 : ℚ) (d : ℕ → ℚ) (k : ℕ) : List ℚ :=
  (List.range k).map (fun j => x0 + ((List.range (j + 1)).map d).sum)

/-- The level-knot extension of `predict` under `include_error` (lines
869-886): with `lev_knot_width` the spacing between the last two training
level knots, if the last new time position reaches
`knots_tp_level[-1] + lev_knot_width`, new knot positions are laid out by
`np.arange` at that spacing up to `new_tp[-1]`, and each posterior sample's
knot row is extended by a random-walk cumulative sum appended after its last
known knot value.  Otherwise both arrays pass through unchanged.  The
Laplace increments `np.random.laplace(0, level_knot_scale, ...)` are
abstracted as the draw stream `draws` (sample index → position → value); the
distribution scale `_level_knot_scale` plays no role once the draws are
given. -/
def predict_level_knots (knots_tp_level : List ℚ) (_level_knot_scale : ℚ)
    (lev_knot_in : List (List ℚ)) (draws : ℕ → ℕ → ℚ) (new_tp_last : ℚ) :
    List ℚ × List (List ℚ) :=
  let lastK := knots_tp_level.getD (knots_tp_level.length - 1) 0
  let secondLast := knots_tp_level.getD (knots_tp_level.length - 2) 0
  let lev_knot_width := lastK - secondLast
  if lastK + lev_knot_width ≤ new_tp_last then
    let knots_tp_level_out := arangeQ (lastK + lev_knot_width) new_tp_last lev_knot_width
    let new_knots_tp_level := knots_tp_level ++ knots_tp_level_out
    let lev_knot := (List.range lev_knot_in.length).map (fun i =>
      let row := lev_knot_in.getD i []
      row ++ walkFrom (row.getD (row.length - 1) 0) (draws i) knots_tp_level_out.length)
    (new_knots_tp_level, lev_knot)
  else (knots_tp_level, lev_knot_in)

/-! ## Prediction and decomposition engine (`predict`, lines 829-938) -/

/-- The four keys of the decomposition dictionary returned by `predict`
(lines 926-931).  The Python dict literal uses the string keys
`'prediction'`, `'trend'`, `'seasonality_input'`, `'regression'`; they are
embedded as a closed key type with the same names. -/
inductive DecompKey
  | prediction
  | trend
  | seasonality_input
  | regression
deriving DecidableEq, BEq

/-- Elementwise matrix sum `A + B` of same-shape arrays. -/
def addMat (A B : List (List ℚ)) : List (List ℚ) :=
  List.zipWith (fun x y => List.zipWith (· + ·) x y) A B

/-- Numpy broadcasting of a `(1 × T)` array against an `(S × T)` array:
the single row is added to every row. -/
def broadcastRowAdd (A : List (List ℚ)) (row : List ℚ) : List (List ℚ) :=
  A.map (fun x => List.zipWith (· + ·) x row)

/-- The seasonality component of `predict` (lines 893-904): the 1-d output
of `_generate_seas` gains a leading batch axis of size one
(`np.expand_dims(seas, 0)`, line 901); without seasonal input it is
`np.zeros((1, output_len))` (line 904). -/
def seas_component (output_len : ℕ) (seas_gen : Option (List ℚ)) : List (List ℚ) :=
  match seas_gen with
  | some s => [s]
  | none => zerosMat 1 output_len

/-- The regression component of `predict` (lines 907-916):
`np.sum(regressor_betas * regressor_matrix, axis=-1)` when regressors exist,
`np.zeros(trend.shape)` otherwise. -/
def regression_component (num_of_regressors : ℕ) (regressor_matrix : List (List ℚ))
    (regressor_betas : List (List (List ℚ))) (trend : List (List ℚ)) :
    List (List ℚ) :=
  if num_of_regressors ≠ 0 then
    regressor_betas.map (fun bt => List.zipWith dotQ bt regressor_matrix)
  else zerosMat trend.length (trend.headD []).length

/-- The total prediction of `predict` (lines 918-923):
`trend + seas + regression`, broadcasting the single seasonal row across
samples, plus the noise draws `epsilon` (one per sample × time step) when
`include_error`. -/
def prediction_component (trend seasM regression : List (List ℚ))
    (include_error : Bool) (epsilon : List (List ℚ)) : List (List ℚ) :=
  let noiseless := addMat (broadcastRowAdd trend (seasM.getD 0 [])) regression
  if include_error then addMat noiseless epsilon else noiseless

/-- The decomposition dictionary returned by `predict` (lines 893-931), from
the already resolved inputs: `seas_gen` is the output of `_generate_seas`
when `_seasonal_knots_input` is present and `None` otherwise, `trend`
multiplies the level knot samples by the level kernel (line 906), and the
returned dictionary has exactly the four decomposition keys (lines
926-931). -/
def predict_decomp (output_len : ℕ)
    (lev_knot kernel_level : List (List ℚ))
    (seas_gen : Option (List ℚ))
    (num_of_regressors : ℕ) (regressor_matrix : List (List ℚ))
    (regressor_betas : List (List (List ℚ)))
    (include_error : Bool) (epsilon : List (List ℚ)) :
    List (DecompKey × List (List ℚ)) :=
  let seas := seas_component output_len seas_gen
  let trend := matmulT lev_knot kernel_level
  let regression :=
    regression_component num_of_regressors regressor_matrix regressor_betas trend
  [(DecompKey.prediction, prediction_component trend seas regression include_error epsilon),
   (DecompKey.trend, trend),
   (DecompKey.seasonality_input, seas),
   (DecompKey.regression, regression)]

/-- Shape predicate: `A` is an `r × c` row-major matrix. -/
def isMat (A : List (List ℚ)) (r c : ℕ) : Prop :=
  A.length = r ∧ ∀ row ∈ A, row.length = c

/-- Component lookup in the decomposition dictionary. -/
def decompComponent (d : List (DecompKey × List (List ℚ))) (k : DecompKey) :
    List (List ℚ) :=
  (d.lookup k).getD []

/-! ## Coefficient curve reconstructor (`_get_regression_coefs_matrix`,
lines 940-1016) -/

/-- The error taxonomy raised by the embedded operations:
`IllegalArgument` and `ModelException` are orbit's own exception types;
`AttributeError` and `IndexError` are Python's. -/
inductive KTRError
  | illegal_argument
  | model_exception
  | attribute_error
  | index_error
deriving DecidableEq

/-- Modelled from the spec: `is_ordered_datetime` of `orbit/utils/general.py`
(not under `src/`).  Per spec §7, an "unordered or duplicate date index" is
fatal, so an ordered datetime array is one that strictly increases. -/
def is_ordered_datetime : List ℚ → Bool
  | [] => true
  | [_] => true
  | a :: b :: rest => if a < b then is_ordered_datetime (b :: rest) else false

/-- `np.matmul(coef_knots, kernel.T).transpose((0, 2, 1))` (lines 969-972 and
1007-1008): per posterior sample, the `(time × regressor)` coefficient curve
obtained by multiplying the knot samples by the kernel. -/
def betas_from_kernel (kernel : List (List ℚ)) (coef_knots : List (List (List ℚ))) :
    List (List (List ℚ)) :=
  coef_knots.map (fun sampleMat =>
    kernel.map (fun krow => sampleMat.map (fun rrow => dotQ rrow krow)))

/-- `_get_regression_coefs_matrix` (lines 940-1016).  With no regressors it
returns `None` (line 963-964).  Without a date array, the stored training
kernel is reused (lines 966-972).  With a date array: an unordered or
duplicated array raises `IllegalArgument` (lines 982-983); a start before
the training start raises `ModelException` (lines 986-987); `date_array[0]`
on an empty array raises `IndexError`; otherwise a fresh Gaussian kernel is
built against the same knot set (line 1004) — reading the bandwidth from the
attribute `self.rho_coefficients`, which `__init__` never assigns (the
constructor stores the bandwidth as `regression_rho`, line 228), so the
state carries `none` there and the read raises `AttributeError`.  The
`coef_repeats` bookkeeping of lines 993-1000 is dead in the retained
`smooth` path and is omitted. -/
def get_regression_coefs_matrix (gexp : ℚ → ℚ)
    (num_of_regular num_of_positive : ℕ)
    (rho_coefficients : Option ℚ)
    (knots_tp_coefficients : List ℚ)
    (kernel_coefficients : List (List ℚ))
    (num_of_observations : ℕ)
    (training_start training_end : ℚ)
    (train_date_array : List ℚ)
    (coef_knots : List (List (List ℚ)))
    (date_array : Option (List ℚ)) :
    Except KTRError (Option (List (List (List ℚ)))) :=
  if num_of_regular + num_of_positive = 0 then Except.ok none
  else
    match date_array with
    | none => Except.ok (some (betas_from_kernel kernel_coefficients coef_knots))
    | some dates =>
      if is_ordered_datetime dates = false then Except.error KTRError.illegal_argument
      else
        match dates with
        | [] => Except.error KTRError.index_error
        | d0 :: _ =>
          if d0 < training_start then Except.error KTRError.model_exception
          else
            let start := if training_end < d0 then num_of_observations
              else train_date_array.indexOf d0
            let new_tp := (List.range dates.length).map
              (fun (i : ℕ) => ((start + i + 1 : ℕ) : ℚ) / (num_of_observations : ℚ))
            match rho_coefficients with
            | none => Except.error KTRError.attribute_error
            | some rho => Except.ok (some (betas_from_kernel
                (gauss_kernel gexp new_tp knots_tp_coefficients rho) coef_knots))

/-! ## Regressor defaults (`_set_default_args`, lines 286-330) -/

/-- `_validate_params_len` (lines 304-316) for one optional parameter list:
a present list with the wrong length is an error. -/
def optLenMismatch {α : Type} (n : ℕ) : Option (List α) → Bool
  | none => false
  | some l => l.length != n

/-- `_set_default_args`: with `regressor_col = None`, all derived regressor
lists are empty whatever the other arguments hold, and the regressor count
stays `0` (lines 294-302; `_num_of_regressors` is only assigned at line 330,
which is not reached).  Otherwise lengths are validated and `None` arguments
are replaced by the documented defaults ('=' sign, location 0, initial scale
1, knot scale 0.1), and the count becomes the number of columns.  The result
is `(signs, init knot locations, init knot scales, knot scales, count)`. -/
def set_default_args (regressor_col : Option (List String))
    (regressor_sign : Option (List String))
    (regressor_init_knot_loc : Option (List ℚ))
    (regressor_init_knot_scale : Option (List ℚ))
    (regressor_knot_scale : Option (List ℚ)) :
    Except KTRError (List String × List ℚ × List ℚ × List ℚ × ℕ) :=
  match regressor_col with
  | none => Except.ok ([], [], [], [], 0)
  | some cols =>
    let n := cols.length
    if optLenMismatch n regressor_sign || optLenMismatch n regressor_init_knot_loc
        || optLenMismatch n regressor_init_knot_scale
        || optLenMismatch n regressor_knot_scale then
      Except.error KTRError.illegal_argument
    else
      Except.ok (regressor_sign.getD (List.replicate n eqSign),
        regressor_init_knot_loc.getD (List.replicate n 0),
        regressor_init_knot_scale.getD (List.replicate n 1),
        regressor_knot_scale.getD (List.replicate n (1 / 10)), n)

end Orbit

namespace Orbit

/-! ## Helper lemmas on list indexing -/

theorem getD_zipWith {α β γ : Type} (f : α → β → γ) (l₁ : List α) (l₂ : List β)
    (i : ℕ) (d₁ : α) (d₂ : β) (d₃ : γ) (h₁ : i < l₁.length) (h₂ : i < l₂.length) :
    (List.zipWith f l₁ l₂).getD i d₃ = f (l₁.getD i d₁) (l₂.getD i d₂) := by
  induction l₁ generalizing l₂ i with
  | nil => simp at h₁
  | cons a t ih =>
    cases l₂ with
    | nil => simp at h₂
    | cons b t₂ =>
      cases i with
      | zero => simp
      | succ n =>
        simp only [List.zipWith_cons_cons, List.getD_cons_succ]
        exact ih t₂ n (by simpa using h₁) (by simpa using h₂)

theorem getD_map {α β : Type} (f : α → β) (l : List α) (i : ℕ) (d : α) (db : β)
    (h : i < l.length) : (l.map f).getD i db = f (l.getD i d) := by
  induction l generalizing i with
  | nil => simp at h
  | cons a t ih =>
    cases i with
    | zero => simp
    | succ n =>
      simp only [List.map_cons, List.getD_cons_succ]
      exact ih n (by simpa using h)

theorem getD_range (n i : ℕ) (d : ℕ) (h : i < n) : (List.range n).getD i d = i := by
  simp [List.getD, List.getElem?_range h]

theorem length_arangeQ (a b w : ℚ) : (arangeQ a b w).length = (⌈(b - a) / w⌉).toNat := by
  rw [arangeQ, List.length_map, List.length_range]

theorem length_arangeQ_pos (a b w : ℚ) (hw : 0 < w) (h : a < b) :
    0 < (arangeQ a b w).length := by
  rw [length_arangeQ]
  have hpos : 0 < (b - a) / w := div_pos (by linarith) hw
  have hc := Int.ceil_pos.2 hpos
  omega

theorem arangeQ_self (a w : ℚ) : arangeQ a a w = [] := by
  simp [arangeQ]

theorem map_range_getD {α : Type} (l : List α) (d : α) :
    (List.range l.length).map (fun i => l.getD i d) = l := by
  refine List.ext_getElem (by simp) ?_
  intro n h1 h2
  rw [List.getElem_map, List.getElem_range, List.getD_eq_getElem _ _ h2]

theorem getD_replicate {α : Type} (n i : ℕ) (a d : α) :
    (List.replicate n a).getD i d = if i < n then a else d := by
  induction n generalizing i with
  | zero => simp
  | succ m ih =>
    cases i with
    | zero => simp
    | succ j =>
      rw [List.replicate_succ, List.getD_cons_succ, ih]
      simp [Nat.succ_lt_succ_iff]

theorem length_matmulT (A B : List (List ℚ)) : (matmulT A B).length = A.length := by
  rw [matmulT, List.length_map]

theorem getD_matmulT (A B : List (List ℚ)) (s : ℕ) (hs : s < A.length) :
    (matmulT A B).getD s [] = B.map (fun brow => dotQ (A.getD s []) brow) := by
  rw [matmulT, getD_map _ _ s [] [] hs]

theorem entry_matmulT (A B : List (List ℚ)) (s t : ℕ) (hs : s < A.length)
    (ht : t < B.length) :
    entry (matmulT A B) s t = dotQ (A.getD s []) (B.getD t []) := by
  rw [entry, getD_matmulT A B s hs, getD_map _ _ t [] 0 ht]

theorem isMat_matmulT (A B : List (List ℚ)) :
    isMat (matmulT A B) A.length B.length := by
  refine ⟨length_matmulT A B, ?_⟩
  intro row h
  rw [matmulT] at h
  obtain ⟨a, _, rfl⟩ := List.mem_map.1 h
  rw [List.length_map]

theorem length_zerosMat (r c : ℕ) : (zerosMat r c).length = r := by
  rw [zerosMat, List.length_replicate]

theorem isMat_zerosMat (r c : ℕ) : isMat (zerosMat r c) r c := by
  refine ⟨length_zerosMat r c, ?_⟩
  intro row h
  rw [zerosMat] at h
  rw [List.eq_of_mem_replicate h, List.length_replicate]

theorem entry_zerosMat (r c s t : ℕ) : entry (zerosMat r c) s t = 0 := by
  rw [entry, zerosMat, getD_replicate]
  rcases lt_or_ge s r with h | h
  · rw [if_pos h, getD_replicate]
    split <;> rfl
  · rw [if_neg (not_lt.2 h)]
    rfl

theorem length_addMat (A B : List (List ℚ)) :
    (addMat A B).length = min A.length B.length := by
  rw [addMat, List.length_zipWith]

theorem getD_addMat (A B : List (List ℚ)) (s : ℕ) (h1 : s < A.length)
    (h2 : s < B.length) :
    (addMat A B).getD s [] = List.zipWith (· + ·) (A.getD s []) (B.getD s []) := by
  rw [addMat]
  exact getD_zipWith _ A B s [] [] [] h1 h2

theorem entry_addMat (A B : List (List ℚ)) (s t : ℕ) (h1 : s < A.length)
    (h2 : s < B.length) (h3 : t < (A.getD s []).length)
    (h4 : t < (B.getD s []).length) :
    entry (addMat A B) s t = entry A s t + entry B s t := by
  rw [entry, getD_addMat A B s h1 h2, getD_zipWith _ _ _ t 0 0 0 h3 h4, entry, entry]

theorem isMat_addMat {A B : List (List ℚ)} {r c : ℕ} (hA : isMat A r c)
    (hB : isMat B r c) : isMat (addMat A B) r c := by
  refine ⟨by rw [length_addMat, hA.1, hB.1, Nat.min_self], ?_⟩
  intro row h
  rw [addMat] at h
  obtain ⟨i, hilen, hrow⟩ := List.mem_iff_getElem.1 h
  have hiA : i < A.length := by
    rw [List.length_zipWith] at hilen
    omega
  have hiB : i < B.length := by
    rw [List.length_zipWith] at hilen
    omega
  rw [← hrow, List.getElem_zipWith, List.length_zipWith,
    hA.2 _ (List.getElem_mem hiA), hB.2 _ (List.getElem_mem hiB), Nat.min_self]

theorem length_broadcastRowAdd (A : List (List ℚ)) (row : List ℚ) :
    (broadcastRowAdd A row).length = A.length := by
  rw [broadcastRowAdd, List.length_map]

theorem getD_broadcastRowAdd (A : List (List ℚ)) (row : List ℚ) (s : ℕ)
    (h : s < A.length) :
    (broadcastRowAdd A row).getD s [] = List.zipWith (· + ·) (A.getD s []) row := by
  rw [broadcastRowAdd, getD_map _ _ s [] [] h]

theorem entry_broadcastRowAdd (A : List (List ℚ)) (row : List ℚ) (s t : ℕ)
    (h : s < A.length) (h3 : t < (A.getD s []).length) (h4 : t < row.length) :
    entry (broadcastRowAdd A row) s t = entry A s t + row.getD t 0 := by
  rw [entry, getD_broadcastRowAdd A row s h, getD_zipWith _ _ _ t 0 0 0 h3 h4, entry]

theorem isMat_broadcastRowAdd {A : List (List ℚ)} {row : List ℚ} {r c : ℕ}
    (hA : isMat A r c) (hrow : row.length = c) :
    isMat (broadcastRowAdd A row) r c := by
  refine ⟨by rw [length_broadcastRowAdd, hA.1], ?_⟩
  intro x h
  rw [broadcastRowAdd] at h
  obtain ⟨a, ha, rfl⟩ := List.mem_map.1 h
  rw [List.length_zipWith, hA.2 _ ha, hrow, Nat.min_self]

theorem getD_mem {α : Type} (l : List α) (i : ℕ) (d : α) (h : i < l.length) :
    l.getD i d ∈ l := by
  rw [List.getD_eq_getElem _ _ h]
  exact List.getElem_mem h

theorem isMat_rowlen {A : List (List ℚ)} {r c : ℕ} (h : isMat A r c) (s : ℕ)
    (hs : s < r) : (A.getD s []).length = c :=
  h.2 _ (getD_mem A s [] (by rw [h.1]; exact hs))

theorem seas_component_shape (output_len T : ℕ) (seas_gen : Option (List ℚ))
    (hout : output_len = T) (hseas : ∀ s0, seas_gen = some s0 → s0.length = T) :
    (seas_component output_len seas_gen).length = 1
    ∧ ∀ row ∈ seas_component output_len seas_gen, row.length = T := by
  cases seas_gen with
  | none =>
    subst hout
    refine ⟨by rw [seas_component, length_zerosMat], ?_⟩
    intro row h
    rw [seas_component] at h
    exact (isMat_zerosMat 1 output_len).2 row h
  | some s0 =>
    refine ⟨rfl, ?_⟩
    intro row h
    rw [seas_component] at h
    rcases List.mem_singleton.1 h with rfl
    exact hseas _ rfl

theorem regression_component_shape {S T nreg : ℕ} {X : List (List ℚ)}
    {B : List (List (List ℚ))} {trend : List (List ℚ)}
    (htrend : isMat trend S T)
    (hB : nreg ≠ 0 → B.length = S ∧ ∀ bt ∈ B, bt.length = T)
    (hX : nreg ≠ 0 → X.length = T) :
    isMat (regression_component nreg X B trend) S T := by
  by_cases h : nreg = 0
  · rw [regression_component, if_neg (not_not_intro h)]
    cases trend with
    | nil =>
      refine ⟨by rw [length_zerosMat, ← htrend.1], ?_⟩
      intro row hrow
      have : S = 0 := htrend.1.symm
      simp [zerosMat, this, ← htrend.1] at hrow
    | cons r rest =>
      have hc : (List.headD (r :: rest) []).length = T :=
        htrend.2 r (List.mem_cons_self r rest)
      rw [← htrend.1, ← hc]
      exact isMat_zerosMat _ _
  · rw [regression_component, if_pos h]
    refine ⟨by rw [List.length_map, (hB h).1], ?_⟩
    intro row hm
    obtain ⟨bt, hbt, rfl⟩ := List.mem_map.1 hm
    rw [List.length_zipWith, (hB h).2 bt hbt, hX h, Nat.min_self]

theorem regression_component_zero (X : List (List ℚ)) (B : List (List (List ℚ)))
    (trend : List (List ℚ)) :
    regression_component 0 X B trend
      = zerosMat trend.length (trend.headD []).length := by
  rw [regression_component, if_neg (by simp)]

theorem prediction_component_shape {trend seasM reg eps : List (List ℚ)} {S T : ℕ}
    {ie : Bool} (htrend : isMat trend S T) (hreg : isMat reg S T)
    (hseasM : seasM.length = 1 ∧ ∀ row ∈ seasM, row.length = T)
    (heps : ie = true → isMat eps S T) :
    isMat (prediction_component trend seasM reg ie eps) S T := by
  have hrow : (seasM.getD 0 []).length = T :=
    hseasM.2 _ (getD_mem seasM 0 [] (by rw [hseasM.1]; exact one_pos))
  have hnoise : isMat (addMat (broadcastRowAdd trend (seasM.getD 0 [])) reg) S T :=
    isMat_addMat (isMat_broadcastRowAdd htrend hrow) hreg
  rw [prediction_component]
  cases ie with
  | false => exact hnoise
  | true =>
    rw [if_pos rfl]
    exact isMat_addMat hnoise (heps rfl)

theorem entry_prediction_component {trend seasM reg eps : List (List ℚ)} {S T : ℕ}
    {ie : Bool} (htrend : isMat trend S T) (hreg : isMat reg S T)
    (hseasM : seasM.length = 1 ∧ ∀ row ∈ seasM, row.length = T)
    (heps : ie = true → isMat eps S T) (s t : ℕ) (hs : s < S) (ht : t < T) :
    entry (prediction_component trend seasM reg ie eps) s t
      = entry trend s t + (seasM.getD 0 []).getD t 0 + entry reg s t
        + (if ie then entry eps s t else 0) := by
  have hrow : (seasM.getD 0 []).length = T :=
    hseasM.2 _ (getD_mem seasM 0 [] (by rw [hseasM.1]; exact one_pos))
  have hBA : isMat (broadcastRowAdd trend (seasM.getD 0 [])) S T :=
    isMat_broadcastRowAdd htrend hrow
  have hnoise : isMat (addMat (broadcastRowAdd trend (seasM.getD 0 [])) reg) S T :=
    isMat_addMat hBA hreg
  have h1 : entry (broadcastRowAdd trend (seasM.getD 0 [])) s t
      = entry trend s t + (seasM.getD 0 []).getD t 0 :=
    entry_broadcastRowAdd trend _ s t (by rw [htrend.1]; exact hs)
      (by rw [isMat_rowlen htrend s hs]; exact ht) (by rw [hrow]; exact ht)
  have h2 : entry (addMat (broadcastRowAdd trend (seasM.getD 0 [])) reg) s t
      = entry (broadcastRowAdd trend (seasM.getD 0 [])) s t + entry reg s t :=
    entry_addMat _ _ s t (by rw [hBA.1]; exact hs) (by rw [hreg.1]; exact hs)
      (by rw [isMat_rowlen hBA s hs]; exact ht)
      (by rw [isMat_rowlen hreg s hs]; exact ht)
  rw [prediction_component]
  cases ie with
  | false =>
    rw [if_neg (by simp)]
    rw [h2, h1]
    push_cast
    ring
  | true =>
    rw [if_pos rfl]
    have h3 : entry (addMat (addMat (broadcastRowAdd trend (seasM.getD 0 [])) reg) eps) s t
        = entry (addMat (broadcastRowAdd trend (seasM.getD 0 [])) reg) s t
          + entry eps s t :=
      entry_addMat _ _ s t (by rw [hnoise.1]; exact hs)
        (by rw [(heps rfl).1]; exact hs)
        (by rw [isMat_rowlen hnoise s hs]; exact ht)
        (by rw [isMat_rowlen (heps rfl) s hs]; exact ht)
    rw [h3, h2, h1]
    rw [if_pos rfl]

theorem getD_indexOf (l : List ℚ) (a : ℚ) (h : a ∈ l) :
    l.getD (l.indexOf a) 0 = a := by
  induction l with
  | nil => simp at h
  | cons b t ih =>
    by_cases hb : b = a
    · simp [hb]
    · have ht : a ∈ t := by
        rcases List.mem_cons.1 h with h1 | h1
        · exact absurd h1.symm hb
        · exact h1
      rw [List.indexOf_cons_ne _ (by simpa using hb)]
      simpa using ih ht

/-! ## Evaluation lemmas for the coefficient reconstructor -/

theorem get_regression_coefs_matrix_insample (gexp : ℚ → ℚ) (nr npos : ℕ)
    (rho : Option ℚ) (knots : List ℚ) (kernel : List (List ℚ)) (N : ℕ)
    (ts te : ℚ) (tda : List ℚ) (ck : List (List (List ℚ)))
    (hreg : nr + npos ≠ 0) :
    get_regression_coefs_matrix gexp nr npos rho knots kernel N ts te tda ck none
      = Except.ok (some (betas_from_kernel kernel ck)) := by
  simp only [get_regression_coefs_matrix, if_neg hreg]

theorem get_regression_coefs_matrix_explicit_ok (gexp : ℚ → ℚ) (nr npos : ℕ)
    (rho : ℚ) (knots : List ℚ) (kernel : List (List ℚ)) (N : ℕ) (ts te : ℚ)
    (tda : List ℚ) (ck : List (List (List ℚ))) (d0 : ℚ) (rest : List ℚ)
    (hreg : nr + npos ≠ 0) (hord : is_ordered_datetime (d0 :: rest) = true)
    (hd0 : ¬ d0 < ts) :
    get_regression_coefs_matrix gexp nr npos (some rho) knots kernel N ts te tda ck
        (some (d0 :: rest))
      = Except.ok (some (betas_from_kernel
          (gauss_kernel gexp
            ((List.range (d0 :: rest).length).map (fun (i : ℕ) =>
              (((if te < d0 then N else tda.indexOf d0) + i + 1 : ℕ) : ℚ) / (N : ℚ)))
            knots rho) ck)) := by
  simp only [get_regression_coefs_matrix, if_neg hreg]
  rw [if_neg (by simp [hord]), if_neg hd0]

theorem get_regression_coefs_matrix_explicit_attr (gexp : ℚ → ℚ) (nr npos : ℕ)
    (knots : List ℚ) (kernel : List (List ℚ)) (N : ℕ) (ts te : ℚ)
    (tda : List ℚ) (ck : List (List (List ℚ))) (d0 : ℚ) (rest : List ℚ)
    (hreg : nr + npos ≠ 0) (hord : is_ordered_datetime (d0 :: rest) = true)
    (hd0 : ¬ d0 < ts) :
    get_regression_coefs_matrix gexp nr npos none knots kernel N ts te tda ck
        (some (d0 :: rest))
      = Except.error KTRError.attribute_error := by
  simp only [get_regression_coefs_matrix, if_neg hreg]
  rw [if_neg (by simp [hord]), if_neg hd0]

/-! ## Claim theorems -/

/-- C1: the claim fails on the code: because `__init__` line 243 and
`_set_coefficients_kernel_matrix` line 482 overwrite `regression_segments`
with `0` before line 493 reads it, the even-segmentation spacing is always
`ceil(cutoff / 1) = cutoff`, producing the single knot `[50]` for
`cutoff = 100, segments = 5` — not the spacing `17` with knots
`[8, 25, 42, 59, 76, 93]` that the user-supplied segment count (and the
claim) dictate.  The last conjunct shows the intended computation from the
user segment count does give exactly the claimed indices. -/
theorem C1_even_segmentation_spacing_bug :
    set_coefficients_kernel_knots_idx 5 none 100 = [50]
    ∧ set_coefficients_kernel_knots_idx 5 none 100 ≠ [8, 25, 42, 59, 76, 93]
    ∧ knots_idx_with_user_segments 5 100 = [8, 25, 42, 59, 76, 93] := by
  refine ⟨by decide, by decide, by decide⟩

/-- C2: the claim fails on the code for unconstrained regressors: the
volume-adjustment block of `_set_knots_scale_matrix` (lines 590-607) is not
inside the `else` of `if self.flat_multiplier` (lines 586-589), so with
`flat_multiplier = True` a regular-regressor segment whose local mean-abs
value is below 1% of the global median still gets multiplier `0.01` instead
of `1` — here the regressor values are `[100, 100, 0, 0]` over 4 observations
with knot indices `[0, 2]`, whose second segment has local mean `0 < 50/100`.
The positive-regressor branch (lines 542-567) honours flat mode and yields
all ones on the same data, as the claim states. -/
theorem C2_flat_multiplier_regular_bug :
    regular_knots_multiplier true [[100], [100], [0], [0]] [0, 2] 4 1 = [[1, 1 / 100]]
    ∧ positive_knots_multiplier true [[100], [100], [0], [0]] [0, 2] 4 1 = [[1, 1]]
    ∧ [[(1 : ℚ), 1 / 100]] ≠ [[1, 1]] := by
  refine ⟨?_, ?_, ?_⟩
  · norm_num [regular_knots_multiplier, localVal, medianQ, meanQ, sortQ, insertSorted,
      columnAbs, sliceRows, List.range_succ]
  · norm_num [positive_knots_multiplier, fullMat, List.replicate_succ]
  · norm_num

/-- C4, counterexample: the filter does not clamp a window endpoint into
`[0, num_observations]` from below — `min(·, df.shape[0])` only clamps from
above (lines 779-780).  A prior with `prior_start_tp_idx = -5` on a 10-row
window is kept with its start endpoint still `-5`, outside `[0, 10]`. -/
theorem C4_no_lower_clamp_counterexample :
    (filter_coef_prior 10 [⟨-5, 3, 2, 3, [colX]⟩]).map
        (fun q => q.prior_start_tp_idx) = [-5]
    ∧ ¬ (0 : ℤ) ≤ -5 := by
  refine ⟨?_, by decide⟩
  simp [filter_coef_prior, filter_one_coef_prior]

/-- C4, amended: the filter clamps both window endpoints from above to
`num_observations` only (no lower clamp at `0`); a prior whose clamped window
is non-empty has its scalar mean and sd replaced by arrays of shape
`(window_length × num_target_columns)`; a prior whose clamped window is empty
is silently removed — in particular `prior_start_tp_idx = 5`,
`prior_end_tp_idx = 3` on a 10-row window is dropped, and membership in the
filtered list is exactly survival of the per-prior filter. -/
theorem C4_prior_filter_amended :
    (∀ (n : ℤ) (p : CoefPrior),
      ((filter_one_coef_prior n p).isSome
          ↔ min p.prior_start_tp_idx n < min p.prior_end_tp_idx n)
      ∧ ∀ q, filter_one_coef_prior n p = some q →
          q.prior_start_tp_idx = min p.prior_start_tp_idx n
          ∧ q.prior_end_tp_idx = min p.prior_end_tp_idx n
          ∧ q.prior_mean.length
              = (min p.prior_end_tp_idx n - min p.prior_start_tp_idx n).toNat
          ∧ (∀ row ∈ q.prior_mean, row.length = p.prior_regressor_col.length)
          ∧ q.prior_sd.length
              = (min p.prior_end_tp_idx n - min p.prior_start_tp_idx n).toNat
          ∧ (∀ row ∈ q.prior_sd, row.length = p.prior_regressor_col.length)
          ∧ q.prior_regressor_col = p.prior_regressor_col)
    ∧ (∀ (n : ℤ) (l : List CoefPrior) (q : FilteredCoefPrior),
        q ∈ filter_coef_prior n l ↔ ∃ p ∈ l, filter_one_coef_prior n p = some q)
    ∧ filter_coef_prior 10 [⟨5, 3, 1, 1, [colX]⟩] = [] := by
  refine ⟨fun n p => ⟨?_, fun q hq => ?_⟩, fun n l q => List.mem_filterMap, ?_⟩
  · constructor
    · intro hs
      by_contra hlt
      simp [filter_one_coef_prior, hlt] at hs
    · intro hlt
      simp [filter_one_coef_prior, hlt]
  · rw [filter_one_coef_prior] at hq
    split at hq
    · cases hq
      refine ⟨rfl, rfl, ?_, ?_, ?_, ?_, rfl⟩
      · simp [fullMat]
      · intro row hrow
        rw [fullMat] at hrow
        rw [List.eq_of_mem_replicate hrow]
        simp
      · simp [fullMat]
      · intro row hrow
        rw [fullMat] at hrow
        rw [List.eq_of_mem_replicate hrow]
        simp
    · cases hq
  · simp [filter_coef_prior, filter_one_coef_prior]

/-- C4, witness for the amended theorem: a prior with window `[0, 3)` and one
target column on 10 observations survives the filter with a `3 × 1` mean
array, and the `[5, 3)` prior is dropped. -/
theorem C4_prior_filter_witness :
    (filter_one_coef_prior 10 ⟨0, 3, 1, 1, [colX]⟩
        = some ⟨0, 3, fullMat 3 1 1, fullMat 3 1 1, [colX]⟩)
    ∧ (fullMat 3 1 (1 : ℚ)).length = 3
    ∧ filter_coef_prior 10 [⟨5, 3, 1, 1, [colX]⟩] = [] := by
  have hq : filter_one_coef_prior 10 ⟨0, 3, 1, 1, [colX]⟩
      = some ⟨0, 3, fullMat 3 1 1, fullMat 3 1 1, [colX]⟩ := by
    simp [filter_one_coef_prior]
  refine ⟨hq, ?_, C4_prior_filter_amended.2.2⟩
  have h := (C4_prior_filter_amended.1 10 ⟨0, 3, 1, 1, [colX]⟩).2 _ hq
  simpa using h.2.2.1

/-- C6: `_set_static_regression_attributes` partitions the `(column, sign)`
declarations into the regular (non-`'+'`) and positive (`'+'`) groups, each
an order-preserving subsequence of the declared columns (exactly the filters
of the declaration list), and the combined column list (line 355) and the
coefficient-matrix concatenation (`torch.cat((rr, pr), dim=1)`, line 821)
both place all unconstrained regressors before all positive ones. -/
theorem C6_regressor_partition_order :
    (∀ (pairs : List (String × String)),
      (partition_regressors pairs).1
          = (pairs.filter (fun p => !(p.2 == plusSign))).map Prod.fst
      ∧ (partition_regressors pairs).2
          = (pairs.filter (fun p => p.2 == plusSign)).map Prod.fst)
    ∧ (∀ (cols signs : List String), cols.length = signs.length →
        (set_static_regressor_cols cols signs).2.2
          = ((List.zip cols signs).filter (fun p => !(p.2 == plusSign))).map Prod.fst
            ++ ((List.zip cols signs).filter (fun p => p.2 == plusSign)).map Prod.fst
        ∧ ((set_static_regressor_cols cols signs).1).Sublist cols
        ∧ ((set_static_regressor_cols cols signs).2.1).Sublist cols)
    ∧ (∀ (rr pr m : List (List ℚ)),
        concat_regression_coefs (some pr) (some rr) = some m →
          ∀ i, i < rr.length → i < pr.length →
            m.getD i [] = rr.getD i [] ++ pr.getD i []) := by
  have hpart : ∀ (pairs : List (String × String)),
      (partition_regressors pairs).1
          = (pairs.filter (fun p => !(p.2 == plusSign))).map Prod.fst
      ∧ (partition_regressors pairs).2
          = (pairs.filter (fun p => p.2 == plusSign)).map Prod.fst := by
    intro pairs
    induction pairs with
    | nil => simp [partition_regressors]
    | cons p rest ih =>
      rw [partition_regressors]
      by_cases hp : p.2 = plusSign
      · simp [hp, List.filter_cons, ih.1, ih.2]
      · simp [hp, List.filter_cons, ih.1, ih.2]
  refine ⟨hpart, fun cols signs hlen => ?_, fun rr pr m hm i hir hip => ?_⟩
  · have hzip : (List.zip cols signs).map Prod.fst = cols :=
      List.map_fst_zip cols signs (le_of_eq hlen)
    have h1 := (hpart (List.zip cols signs)).1
    have h2 := (hpart (List.zip cols signs)).2
    refine ⟨?_, ?_, ?_⟩
    · simp [set_static_regressor_cols, h1, h2]
    · have hsub : (((List.zip cols signs).filter (fun p => !(p.2 == plusSign))).map
          Prod.fst).Sublist ((List.zip cols signs).map Prod.fst) :=
        List.Sublist.map Prod.fst (List.filter_sublist _)
      rw [hzip] at hsub
      rw [set_static_regressor_cols]
      dsimp only
      rw [h1]
      exact hsub
    · have hsub : (((List.zip cols signs).filter (fun p => p.2 == plusSign)).map
          Prod.fst).Sublist ((List.zip cols signs).map Prod.fst) :=
        List.Sublist.map Prod.fst (List.filter_sublist _)
      rw [hzip] at hsub
      rw [set_static_regressor_cols]
      dsimp only
      rw [h2]
      exact hsub
  · rw [concat_regression_coefs] at hm
    cases hm
    exact getD_zipWith _ rr pr i [] [] [] hir hip

/-- C6, witness: with declaration order `[(x, '='), (y, '+')]` the combined
column list is `[x, y]`, both groups are subsequences of the declared
columns, and concatenating one-row coefficient matrices puts the regular
entry first. -/
theorem C6_regressor_partition_order_witness :
    (set_static_regressor_cols [colX, colY] [eqSign, plusSign]).2.2 = [colX, colY]
    ∧ ((set_static_regressor_cols [colX, colY] [eqSign, plusSign]).1).Sublist [colX, colY]
    ∧ ([[(1 : ℚ), 2]] : List (List ℚ)).getD 0 []
        = ([[(1 : ℚ)]] : List (List ℚ)).getD 0 [] ++ ([[(2 : ℚ)]] : List (List ℚ)).getD 0 [] := by
  have h2 := C6_regressor_partition_order.2.1 [colX, colY] [eqSign, plusSign] (by decide)
  have h3 := C6_regressor_partition_order.2.2 [[(1 : ℚ)]] [[(2 : ℚ)]] [[(1 : ℚ), 2]]
    (by simp [concat_regression_coefs]) 0 (by decide) (by decide)
  refine ⟨?_, h2.2.1, h3⟩
  rw [h2.1]
  decide

/-- C5: during a noise-inclusive prediction, if the forecast horizon's last
time position lies strictly beyond the last level knot plus one knot-width
(the spacing between the last two training level knots), the level knot
array gains strictly more knots than the training fit and each posterior
sample's knot row is extended by the cumulative random-walk appended after
its last known knot value; if the horizon stays within that bound
(including landing exactly on it, where `np.arange` lays out zero new
positions), the knot count equals the training count and the knot values are
unchanged. -/
theorem C5_level_knot_extension (knots : List ℚ) (scale : ℚ)
    (lev_in : List (List ℚ)) (draws : ℕ → ℕ → ℚ) (tlast : ℚ)
    (h2 : 2 ≤ knots.length)
    (hw : knots.getD (knots.length - 2) 0 < knots.getD (knots.length - 1) 0) :
    (knots.getD (knots.length - 1) 0
        + (knots.getD (knots.length - 1) 0 - knots.getD (knots.length - 2) 0) < tlast →
      knots.length < (predict_level_knots knots scale lev_in draws tlast).1.length
      ∧ (predict_level_knots knots scale lev_in draws tlast).2.length = lev_in.length
      ∧ ∀ i, i < lev_in.length →
          (predict_level_knots knots scale lev_in draws tlast).2.getD i []
            = lev_in.getD i []
              ++ walkFrom ((lev_in.getD i []).getD ((lev_in.getD i []).length - 1) 0)
                  (draws i)
                  ((predict_level_knots knots scale lev_in draws tlast).1.length
                    - knots.length))
    ∧ (tlast ≤ knots.getD (knots.length - 1) 0
        + (knots.getD (knots.length - 1) 0 - knots.getD (knots.length - 2) 0) →
      (predict_level_knots knots scale lev_in draws tlast).1.length = knots.length
      ∧ (predict_level_knots knots scale lev_in draws tlast).2 = lev_in) := by
  have hw0 : 0 < knots.getD (knots.length - 1) 0 - knots.getD (knots.length - 2) 0 := by
    linarith
  constructor
  · intro hgt
    have hcond : knots.getD (knots.length - 1) 0
        + (knots.getD (knots.length - 1) 0 - knots.getD (knots.length - 2) 0) ≤ tlast :=
      le_of_lt hgt
    rw [predict_level_knots]
    simp only [if_pos hcond]
    have hout : 0 < (arangeQ
        (knots.getD (knots.length - 1) 0
          + (knots.getD (knots.length - 1) 0 - knots.getD (knots.length - 2) 0)) tlast
        (knots.getD (knots.length - 1) 0 - knots.getD (knots.length - 2) 0)).length :=
      length_arangeQ_pos _ _ _ hw0 hgt
    refine ⟨?_, by rw [List.length_map, List.length_range], ?_⟩
    · rw [List.length_append]
      omega
    · intro i hi
      rw [getD_map _ _ i 0 [] (by simpa using hi), getD_range _ _ _ hi]
      rw [List.length_append]
      simp
  · intro hle
    rcases lt_or_eq_of_le hle with hlt | heq
    · rw [predict_level_knots]
      rw [if_neg (not_le.2 hlt)]
      exact ⟨rfl, rfl⟩
    · rw [predict_level_knots]
      simp only [if_pos (le_of_eq heq.symm)]
      rw [← heq, arangeQ_self]
      constructor
      · simp
      · simp only [List.length_nil, walkFrom, List.range_zero, List.map_nil,
          List.append_nil]
        exact map_range_getD lev_in []

/-- C5, witness: two training knots at `1/2` and `1` (width `1/2`), one
posterior sample `[3, 7]`.  A horizon ending at `2 > 1 + 1/2` yields more
knots with the sample row extended by the random walk from `7`; a horizon
ending at `5/4 ≤ 3/2` keeps exactly the training knots and values. -/
theorem C5_level_knot_extension_witness :
    (2 < (predict_level_knots [1 / 2, 1] (1 / 10) [[3, 7]] (fun _ _ => 1) 2).1.length
      ∧ (predict_level_knots [1 / 2, 1] (1 / 10) [[3, 7]] (fun _ _ => 1) 2).2.length = 1)
    ∧ (predict_level_knots [1 / 2, 1] (1 / 10) [[3, 7]] (fun _ _ => 1) (5 / 4)).1.length = 2
    ∧ (predict_level_knots [1 / 2, 1] (1 / 10) [[3, 7]] (fun _ _ => 1) (5 / 4)).2 = [[3, 7]] := by
  have h := C5_level_knot_extension [1 / 2, 1] (1 / 10) [[3, 7]] (fun _ _ => 1) 2
    (by decide) (by norm_num)
  have h' := C5_level_knot_extension [1 / 2, 1] (1 / 10) [[3, 7]] (fun _ _ => 1) (5 / 4)
    (by decide) (by norm_num)
  have hgt := h.1 (by norm_num)
  have hle := h'.2 (by norm_num)
  exact ⟨⟨by simpa using hgt.1, hgt.2.1⟩, by simpa using hle.1, hle.2⟩

/-- C7, counterexample: with two posterior samples the decomposition's
`seasonality_input` entry is a `1 × time` array (the single broadcast row of
`np.expand_dims` / `np.zeros((1, output_len))`, lines 901-904), not a
`samples × time` array as the claim states for every component: here the
trend has 2 rows but the seasonality entry has 1. -/
theorem C7_seasonality_shape_counterexample :
    (decompComponent (predict_decomp 1 [[1], [2]] [[1]] none 0 [] [] false [])
        DecompKey.seasonality_input).length = 1
    ∧ (decompComponent (predict_decomp 1 [[1], [2]] [[1]] none 0 [] [] false [])
        DecompKey.trend).length = 2
    ∧ (1 : ℕ) ≠ 2 := by
  exact ⟨rfl, rfl, by decide⟩

/-- C7, amended: the returned dictionary contains exactly the components
`prediction`, `trend`, `seasonality_input`, `regression`; `prediction`,
`trend` and `regression` are `samples × time` arrays, while
`seasonality_input` is a single broadcast row (`1 × time`); and the
prediction entry equals the elementwise sum `trend + seasonality
(broadcast across samples) + regression`, plus one noise draw per
`(sample × time-step)` when noise is requested and nothing extra
otherwise. -/
theorem C7_decomposition_amended (output_len S T : ℕ)
    (lev_knot kernel_level : List (List ℚ)) (seas_gen : Option (List ℚ))
    (num_of_regressors : ℕ) (regressor_matrix : List (List ℚ))
    (regressor_betas : List (List (List ℚ))) (include_error : Bool)
    (epsilon : List (List ℚ)) (d : List (DecompKey × List (List ℚ)))
    (hd : d = predict_decomp output_len lev_knot kernel_level seas_gen
      num_of_regressors regressor_matrix regressor_betas include_error epsilon)
    (hS : lev_knot.length = S) (hT : kernel_level.length = T)
    (hout : output_len = T)
    (hseas : ∀ s0, seas_gen = some s0 → s0.length = T)
    (hB : num_of_regressors ≠ 0 →
      regressor_betas.length = S ∧ ∀ bt ∈ regressor_betas, bt.length = T)
    (hX : num_of_regressors ≠ 0 → regressor_matrix.length = T)
    (hE : include_error = true → isMat epsilon S T) :
    d.map Prod.fst
        = [DecompKey.prediction, DecompKey.trend, DecompKey.seasonality_input,
           DecompKey.regression]
    ∧ isMat (decompComponent d DecompKey.prediction) S T
    ∧ isMat (decompComponent d DecompKey.trend) S T
    ∧ isMat (decompComponent d DecompKey.regression) S T
    ∧ (decompComponent d DecompKey.seasonality_input).length = 1
    ∧ (∀ row ∈ decompComponent d DecompKey.seasonality_input, row.length = T)
    ∧ ∀ s t, s < S → t < T →
        entry (decompComponent d DecompKey.prediction) s t
          = entry (decompComponent d DecompKey.trend) s t
            + ((decompComponent d DecompKey.seasonality_input).getD 0 []).getD t 0
            + entry (decompComponent d DecompKey.regression) s t
            + (if include_error then entry epsilon s t else 0) := by
  have hkeys : d.map Prod.fst
      = [DecompKey.prediction, DecompKey.trend, DecompKey.seasonality_input,
         DecompKey.regression] := by rw [hd]; rfl
  have hTr : decompComponent d DecompKey.trend = matmulT lev_knot kernel_level := by
    rw [hd]; rfl
  have hSe : decompComponent d DecompKey.seasonality_input
      = seas_component output_len seas_gen := by rw [hd]; rfl
  have hRg : decompComponent d DecompKey.regression
      = regression_component num_of_regressors regressor_matrix regressor_betas
          (matmulT lev_knot kernel_level) := by rw [hd]; rfl
  have hP : decompComponent d DecompKey.prediction
      = prediction_component (matmulT lev_knot kernel_level)
          (seas_component output_len seas_gen)
          (regression_component num_of_regressors regressor_matrix regressor_betas
            (matmulT lev_knot kernel_level)) include_error epsilon := by rw [hd]; rfl
  have htrend : isMat (matmulT lev_knot kernel_level) S T := by
    rw [← hS, ← hT]
    exact isMat_matmulT _ _
  have hseasSh := seas_component_shape output_len T seas_gen hout hseas
  have hregSh : isMat (regression_component num_of_regressors regressor_matrix
      regressor_betas (matmulT lev_knot kernel_level)) S T :=
    regression_component_shape htrend hB hX
  have hpredSh := prediction_component_shape htrend hregSh hseasSh hE
  refine ⟨hkeys, by rw [hP]; exact hpredSh, by rw [hTr]; exact htrend,
    by rw [hRg]; exact hregSh, by rw [hSe]; exact hseasSh.1,
    by rw [hSe]; exact hseasSh.2, ?_⟩
  intro s t hs ht
  rw [hP, hTr, hSe, hRg]
  exact entry_prediction_component htrend hregSh hseasSh hE s t hs ht

/-- C7, witness for the amended theorem: a concrete two-sample call with no
seasonality, no regressors and no noise has exactly the four keys and a
`2 × 1` trend. -/
theorem C7_decomposition_amended_witness :
    (predict_decomp 1 [[1], [2]] [[1]] none 0 [] [] false []).map Prod.fst
        = [DecompKey.prediction, DecompKey.trend, DecompKey.seasonality_input,
           DecompKey.regression]
    ∧ isMat (decompComponent (predict_decomp 1 [[1], [2]] [[1]] none 0 [] [] false [])
        DecompKey.trend) 2 1 := by
  have h := C7_decomposition_amended 1 2 1 [[1], [2]] [[1]] none 0 [] [] false []
    (predict_decomp 1 [[1], [2]] [[1]] none 0 [] [] false []) rfl rfl rfl rfl
    (fun s0 hs0 => by cases hs0) (fun hne => absurd rfl hne)
    (fun hne => absurd rfl hne) (fun hie => by cases hie)
  exact ⟨h.1, h.2.2.1⟩

/-- C8: the normalized time position of training index `i` is `(i + 1) / N`,
so positions lie in `(0, 1]` with the first observation at `1/N` and the last
at `1`; a prediction date array starting past the training end continues
counting from `N` (first out-of-sample position `(N + 1) / N`); a start date
inside the training range is resolved by exact date match in the training
date index. -/
theorem C8_time_positions (n : ℕ) (hn : 0 < n) :
    (∀ i, i < n →
      (trainTpList n).getD i 0 = ((i + 1 : ℕ) : ℚ) / n
      ∧ 0 < (trainTpList n).getD i 0 ∧ (trainTpList n).getD i 0 ≤ 1)
    ∧ (trainTpList n).getD 0 0 = 1 / n
    ∧ (trainTpList n).getD (n - 1) 0 = 1
    ∧ (∀ (te : ℚ) (da pda : List ℚ), pda ≠ [] → te < pda.headD 0 →
        (generate_tp te n da pda).getD 0 0 = ((n + 1 : ℕ) : ℚ) / n)
    ∧ (∀ (te : ℚ) (da : List ℚ) (ps : ℚ), ¬ te < ps → ps ∈ da →
        generate_tp_start te n da ps = da.indexOf ps
        ∧ da.getD (generate_tp_start te n da ps) 0 = ps) := by
  have hq : (0 : ℚ) < n := by exact_mod_cast hn
  have hget : ∀ i, i < n → (trainTpList n).getD i 0 = ((i + 1 : ℕ) : ℚ) / n := by
    intro i hi
    rw [trainTpList, getD_map _ _ i 0 0 (by simpa using hi), getD_range _ _ _ hi]
  refine ⟨fun i hi => ⟨hget i hi, ?_, ?_⟩, ?_, ?_, ?_, ?_⟩
  · rw [hget i hi]
    apply div_pos _ hq
    exact_mod_cast Nat.succ_pos i
  · rw [hget i hi]
    rw [div_le_one hq]
    exact_mod_cast hi
  · simpa using hget 0 hn
  · rw [hget (n - 1) (by omega)]
    rw [Nat.sub_add_cancel hn]
    exact div_self (by exact_mod_cast hn.ne')
  · intro te da pda hne hlt
    have hlen : 0 < pda.length := List.length_pos.2 hne
    rw [generate_tp]
    rw [getD_map _ _ 0 0 0 (by simpa using hlen), getD_range _ _ _ hlen]
    rw [generate_tp_start, if_pos hlt]
  · intro te da ps hle hmem
    have hstart : generate_tp_start te n da ps = da.indexOf ps := by
      rw [generate_tp_start, if_neg hle]
    exact ⟨hstart, by rw [hstart]; exact getD_indexOf da ps hmem⟩

/-- C8, witness: with `N = 2` training dates `[5, 10]`, the training
positions are `[1/2, 1]`; a prediction starting at date `20 > 10` has first
position `3/2 = (N + 1)/N`; a prediction starting at training date `5` is
located at index `0` by exact match. -/
theorem C8_time_positions_witness :
    (trainTpList 2).getD 0 0 = 1 / 2
    ∧ (trainTpList 2).getD 1 0 = 1
    ∧ (generate_tp 10 2 [5, 10] [20]).getD 0 0 = 3 / 2
    ∧ generate_tp_start 10 2 [5, 10] 5 = [(5 : ℚ), 10].indexOf 5
    ∧ ([(5 : ℚ), 10]).getD (generate_tp_start 10 2 [5, 10] 5) 0 = 5 := by
  have h := C8_time_positions 2 (by decide)
  refine ⟨by simpa using h.2.1, by simpa using h.2.2.1, ?_, ?_, ?_⟩
  · have h4 := h.2.2.2.1 10 [5, 10] [20] (by simp) (by norm_num)
    rw [h4]
    norm_num
  · exact (h.2.2.2.2 10 [5, 10] 5 (by norm_num) (by norm_num)).1
  · exact (h.2.2.2.2 10 [5, 10] 5 (by norm_num) (by norm_num)).2

/-- C3: the claim fails on the code: reconstructing the coefficient curve
with the training date array passed explicitly reads the attribute
`self.rho_coefficients` (line 1004), which `__init__` never assigns — the
constructor stores the bandwidth as `regression_rho` (line 228), and the fit
path builds the training kernel from it (line 535) — so the explicit-date
path raises `AttributeError` instead of producing the curve (first
conjunct).  Under the intended attribute (the same bandwidth the training
kernel was built from), the explicit-date path at the training dates
reproduces exactly the in-sample path: the fresh kernel is built against the
same knot set with the same time positions, adding no new knots (second and
third conjuncts). -/
theorem C3_roundtrip_attribute_bug (gexp : ℚ → ℚ) (nr npos : ℕ) (rho : ℚ)
    (knots : List ℚ) (N : ℕ) (ts te : ℚ) (ck : List (List (List ℚ)))
    (dates : List ℚ)
    (hreg : nr + npos ≠ 0)
    (hord : is_ordered_datetime dates = true)
    (hlen : dates.length = N)
    (hhead : dates.headD 0 = ts)
    (hne : dates ≠ [])
    (hts : ts ≤ te) :
    get_regression_coefs_matrix gexp nr npos none knots
        (gauss_kernel gexp (trainTpList N) knots rho) N ts te dates ck (some dates)
      = Except.error KTRError.attribute_error
    ∧ get_regression_coefs_matrix gexp nr npos (some rho) knots
        (gauss_kernel gexp (trainTpList N) knots rho) N ts te dates ck (some dates)
      = get_regression_coefs_matrix gexp nr npos (some rho) knots
          (gauss_kernel gexp (trainTpList N) knots rho) N ts te dates ck none
    ∧ ∀ row ∈ gauss_kernel gexp (trainTpList N) knots rho,
        row.length = knots.length := by
  obtain ⟨d0, rest, rfl⟩ := List.exists_cons_of_ne_nil hne
  have hd0 : d0 = ts := by simpa using hhead
  subst hd0
  have hnotlt : ¬ d0 < d0 := lt_irrefl d0
  have hnotte : ¬ te < d0 := not_lt.2 hts
  have htp : (List.range (d0 :: rest).length).map (fun (i : ℕ) =>
      (((if te < d0 then N else (d0 :: rest).indexOf d0) + i + 1 : ℕ) : ℚ) / (N : ℚ))
      = trainTpList N := by
    rw [if_neg hnotte, List.indexOf_cons_self, hlen, trainTpList]
    refine List.map_congr_left ?_
    intro i hi
    norm_num
  refine ⟨?_, ?_, ?_⟩
  · exact get_regression_coefs_matrix_explicit_attr gexp nr npos knots _ N d0 te
      (d0 :: rest) ck d0 rest hreg hord hnotlt
  · rw [get_regression_coefs_matrix_explicit_ok gexp nr npos rho knots _ N d0 te
      (d0 :: rest) ck d0 rest hreg hord hnotlt]
    rw [get_regression_coefs_matrix_insample gexp nr npos (some rho) knots _ N d0 te
      (d0 :: rest) ck hreg]
    rw [htp]
  · intro row h
    rw [gauss_kernel] at h
    obtain ⟨t, _, rfl⟩ := List.mem_map.1 h
    rw [List.length_map]

/-- C3, witness: one regressor, one knot at `1/2`, bandwidth `1`, a single
training date `3`: the code path errors with `AttributeError` while the
intended-bandwidth path at the training dates equals the in-sample path. -/
theorem C3_roundtrip_attribute_bug_witness :
    get_regression_coefs_matrix (fun x => x) 1 0 none [1 / 2]
        (gauss_kernel (fun x => x) (trainTpList 1) [1 / 2] 1) 1 3 3 [3] [[[2]]]
        (some [3])
      = Except.error KTRError.attribute_error
    ∧ get_regression_coefs_matrix (fun x => x) 1 0 (some 1) [1 / 2]
        (gauss_kernel (fun x => x) (trainTpList 1) [1 / 2] 1) 1 3 3 [3] [[[2]]]
        (some [3])
      = get_regression_coefs_matrix (fun x => x) 1 0 (some 1) [1 / 2]
          (gauss_kernel (fun x => x) (trainTpList 1) [1 / 2] 1) 1 3 3 [3] [[[2]]]
          none := by
  have h := C3_roundtrip_attribute_bug (fun x => x) 1 0 1 [1 / 2] 1 3 3 [[[2]]] [3]
    (by decide) rfl rfl rfl (by simp) (le_refl 3)
  exact ⟨h.1, h.2.1⟩

/-- C9: reconstructing regression coefficients for an explicitly supplied
date array raises `IllegalArgument` when the date array is unordered or has
duplicates, and `ModelException` when its first date is earlier than the
training start; both fatal, with no partial result (the embedded operation
returns the bare error). -/
theorem C9_explicit_date_errors (gexp : ℚ → ℚ) (nr npos : ℕ) (rho : Option ℚ)
    (knots : List ℚ) (kernel : List (List ℚ)) (N : ℕ) (ts te : ℚ)
    (tda : List ℚ) (ck : List (List (List ℚ))) (dates : List ℚ)
    (hreg : nr + npos ≠ 0) :
    (is_ordered_datetime dates = false →
      get_regression_coefs_matrix gexp nr npos rho knots kernel N ts te tda ck
          (some dates)
        = Except.error KTRError.illegal_argument)
    ∧ (∀ d0 rest, dates = d0 :: rest → is_ordered_datetime dates = true → d0 < ts →
        get_regression_coefs_matrix gexp nr npos rho knots kernel N ts te tda ck
            (some dates)
          = Except.error KTRError.model_exception) := by
  constructor
  · intro hbad
    simp only [get_regression_coefs_matrix, if_neg hreg]
    rw [if_pos hbad]
  · intro d0 rest hdates hord hlt
    subst hdates
    simp only [get_regression_coefs_matrix, if_neg hreg]
    rw [if_neg (by simp [hord]), if_pos hlt]

/-- C9, witness: with one regressor, the unordered date array `[2, 1]`
yields `IllegalArgument`, and the array `[1]` against training start `5`
yields `ModelException`. -/
theorem C9_explicit_date_errors_witness :
    get_regression_coefs_matrix (fun x => x) 1 0 none [] [] 1 0 0 [] []
        (some [2, 1])
      = Except.error KTRError.illegal_argument
    ∧ get_regression_coefs_matrix (fun x => x) 1 0 none [] [] 1 5 5 [] []
        (some [1])
      = Except.error KTRError.model_exception := by
  have h1 := (C9_explicit_date_errors (fun x => x) 1 0 none [] [] 1 0 0 [] [] [2, 1]
    (by decide)).1 (by norm_num [is_ordered_datetime])
  have h2 := (C9_explicit_date_errors (fun x => x) 1 0 none [] [] 1 5 5 [] [] [1]
    (by decide)).2 1 [] rfl rfl (by norm_num)
  exact ⟨h1, h2⟩

/-- C10: with `regressor_col = None`, whatever is passed for the sign,
init-knot-location, init-knot-scale and knot-scale arguments, all derived
regressor configuration lists are empty and the regressor count is `0`
(lines 294-302); consequently the regression component of every prediction
is the all-zeros `samples × time` array (line 907). -/
theorem C10_no_regressor_defaults :
    (∀ (sign : Option (List String)) (loc iscale kscale : Option (List ℚ)),
      set_default_args none sign loc iscale kscale = Except.ok ([], [], [], [], 0))
    ∧ ∀ (output_len : ℕ) (lev_knot kernel_level : List (List ℚ))
        (seas_gen : Option (List ℚ)) (X : List (List ℚ)) (B : List (List (List ℚ)))
        (ie : Bool) (eps : List (List ℚ)), lev_knot ≠ [] →
        decompComponent (predict_decomp output_len lev_knot kernel_level seas_gen 0
            X B ie eps) DecompKey.regression
          = zerosMat lev_knot.length kernel_level.length
        ∧ ∀ s t : ℕ,
            entry (decompComponent (predict_decomp output_len lev_knot kernel_level
              seas_gen 0 X B ie eps) DecompKey.regression) s t = 0 := by
  refine ⟨fun sign loc iscale kscale => rfl, ?_⟩
  intro output_len lev kernel sg X B ie eps hne
  have hc : decompComponent (predict_decomp output_len lev kernel sg 0 X B ie eps)
      DecompKey.regression = regression_component 0 X B (matmulT lev kernel) := rfl
  have hz : regression_component 0 X B (matmulT lev kernel)
      = zerosMat lev.length kernel.length := by
    rw [regression_component_zero, length_matmulT]
    obtain ⟨r, rest, rfl⟩ := List.exists_cons_of_ne_nil hne
    have hh : ((matmulT (r :: rest) kernel).headD []).length = kernel.length := by
      rw [matmulT, List.map_cons, List.headD_cons, List.length_map]
    rw [hh]
  constructor
  · rw [hc, hz]
  · intro s t
    rw [hc, hz]
    exact entry_zerosMat _ _ s t

/-- C10, witness: junk regressor parameters with `regressor_col = None`
still produce empty derived lists and count `0`, and a concrete prediction's
regression component is the zero matrix. -/
theorem C10_no_regressor_defaults_witness :
    set_default_args none (some [colX]) (some [5]) none none
        = Except.ok ([], [], [], [], 0)
    ∧ decompComponent (predict_decomp 1 [[1]] [[1]] none 0 [] [] false [])
        DecompKey.regression = zerosMat 1 1 := by
  have h1 := C10_no_regressor_defaults.1 (some [colX]) (some [5]) none none
  have h2 := (C10_no_regressor_defaults.2 1 [[1]] [[1]] none [] [] false []
    (by simp)).1
  exact ⟨h1, by simpa using h2⟩

end Orbit
